import Mathlib

/-!
Verification of the `energy_plus_wrapper` repository against its specification.

The development shallowly embeds the two source modules:

* `energyplus_wrapper/utils.py` — the report converter: `process_eplus_html_report`
  (with its generator `_eplus_html_report_gen`) and `process_eplus_time_series`;
* `energyplus_wrapper/env_manager.py` — the installer manager: `_is_downloadable`,
  `_extract_filename_info` (a backtracking model of the `eplus_filename_pattern`
  regular expression), `_download_eplus_version`, `_extract_and_install`, and
  `ensure_eplus_root`.

External library calls (pandas, bs4, the network, the filesystem) are modelled as
explicit inputs (outcome fields of the structures) or as effect traces; Python
exceptions are modelled with `Except`.
-/

deriving instance DecidableEq for Except

namespace EPlus

/-! ## Basic string utilities (List Char level) -/

/-- Boolean prefix test on character lists: `p` is a prefix of `s`. -/
def isPrefixList : List Char → List Char → Bool
  | [], _ => true
  | _ :: _, [] => false
  | p :: ps, c :: cs => p == c && isPrefixList ps cs

/-- Substring containment, the model of Python's `pat in s`. -/
def containsSub (pat : List Char) : List Char → Bool
  | [] => isPrefixList pat []
  | c :: rest => isPrefixList pat (c :: rest) || containsSub pat rest

/-- The pattern `pat` occurs in `s` starting at index `i`. -/
def occursAt (pat s : List Char) (i : Nat) : Prop :=
  isPrefixList pat (s.drop i) = true

instance (pat s : List Char) (i : Nat) : Decidable (occursAt pat s i) := by
  unfold occursAt; infer_instance

/-- Model of Python's `name.replace("eplus-", "")` (utils.py line 76): scan left to
right, removing every non-overlapping occurrence of the six characters `eplus-`. -/
def replaceEplus : List Char → List Char
  | 'e' :: 'p' :: 'l' :: 'u' :: 's' :: '-' :: rest => replaceEplus rest
  | c :: rest => c :: replaceEplus rest
  | [] => []

/-! ## utils.py — `process_eplus_time_series` (lines 61-86) -/

/-- Python exceptions relevant to the report converter. -/
inductive PyError where
  | unicodeDecodeError
  | attributeError
  | typeError
  deriving DecidableEq, Repr

/-- Key derivation of utils.py lines 74-76: `name = csv_file.basename().stripext()`;
`if name != "eplus": name = name.replace("eplus-", "")`.  The argument is the file's
base name with the extension already removed. -/
def deriveName (stem : String) : String :=
  if stem = "eplus" then stem else ⟨replaceEplus stem.data⟩

/-- A `*.csv` file of the working directory.  `stem` is the base name without the
extension; `readCsv` is the outcome of the external call `pd.read_csv(csv_file)`
(which raises on malformed or undecodable content); `rawRead` is the outcome of the
external call `open(csv_file).read()` (which raises `UnicodeDecodeError` when the
bytes do not decode as text).  `T` stands for the pandas `DataFrame` type. -/
structure CsvFile (T : Type) where
  stem : String
  readCsv : Except Unit T
  rawRead : Except Unit String

/-- A value of the returned time-series mapping: a parsed table or the raw text
fallback. -/
inductive TsEntry (T : Type) where
  | table (t : T)
  | raw (s : String)
  deriving DecidableEq, Repr

/-- Insertion into a Python `dict` modelled as an association list: an existing key
is overwritten in place, a new key is appended at the end. -/
def upsert {κ α : Type} [DecidableEq κ] : List (κ × α) → κ → α → List (κ × α)
  | [], k, v => [(k, v)]
  | (k', v') :: rest, k, v =>
      if k' = k then (k, v) :: rest else (k', v') :: upsert rest k v

/-- The loop body of `process_eplus_time_series` (utils.py lines 73-85), iterated
over the files with the accumulated dictionary.  The second component collects the
messages of `warnings.warn`; an exception raised by the fallback `open(...).read()`
propagates out of the loop. -/
def processCsvFiles {T : Type} :
    List (CsvFile T) → List (String × TsEntry T) →
      Except PyError (List (String × TsEntry T)) × List String
  | [], acc => (.ok acc, [])
  | f :: rest, acc =>
      let name := deriveName f.stem
      match f.readCsv with
      | .ok t => processCsvFiles rest (upsert acc name (.table t))
      | .error _ =>
          let w := "Unable to parse csv file " ++ f.stem ++ ".csv. Return raw string as fallback."
          match f.rawRead with
          | .ok s =>
              let (r, ws) := processCsvFiles rest (upsert acc name (.raw s))
              (r, w :: ws)
          | .error _ => (.error .unicodeDecodeError, [w])

/-- Model of `process_eplus_time_series` (utils.py lines 61-86) over the list of
`*.csv` files of the working directory, in listing order. -/
def process_eplus_time_series {T : Type} (files : List (CsvFile T)) :
    Except PyError (List (String × TsEntry T)) × List String :=
  processCsvFiles files []

/-! ## utils.py — HTML report (lines 14-58) -/

/-- The result of `table.find_previous(text=re.compile(r"Report:(.*)"))` when a
marker exists: `nextSiblingB` is the text of its `find_next_sibling("b")`, absent
when there is no such sibling. -/
structure MarkerData where
  nextSiblingB : Option String
  deriving DecidableEq, Repr

/-- The document context of one `<table>` element, embedding the outcomes of the
bs4 queries performed on it by `_eplus_html_report_gen`: the nearest preceding
`Report:` text marker (absent if none precedes the table), the bolded previous
sibling used as the title (absent if none exists), and `tbl`, the dataframe that
`pd.read_html(...)[0].dropna(how="all")` produces for it. -/
structure TableCtx (T : Type) where
  prevReportMarker : Option MarkerData
  prevSiblingB : Option String
  tbl : T
  deriving DecidableEq, Repr

/-- The section computation of utils.py lines 28-35: any `AttributeError` raised by
calling `.find_next_sibling` on a missing marker or `.text` on a missing sibling is
caught and the section degrades to `None`. -/
def sectionOf {T : Type} (t : TableCtx T) : Option String :=
  match t.prevReportMarker with
  | none => none
  | some m =>
      match m.nextSiblingB with
      | none => none
      | some b => some b.trim

/-- One step of the generator `_eplus_html_report_gen` (utils.py lines 27-39): the
title lookup `table.find_previous_sibling("b").get_text()` is outside the
`try` block, so a missing previous bolded sibling raises `AttributeError`. -/
def genItem {T : Type} (t : TableCtx T) :
    Except PyError ((Option String × String) × T) :=
  match t.prevSiblingB with
  | none => .error .attributeError
  | some title => .ok ((sectionOf t, title), t.tbl)

/-- Model of `_eplus_html_report_gen` (utils.py lines 14-39): the yielded
`((section, title), dataframe)` items, where an `AttributeError` on any table
propagates to the consumer. -/
def _eplus_html_report_gen {T : Type} (ts : List (TableCtx T)) :
    Except PyError (List ((Option String × String) × T)) :=
  ts.mapM genItem

/-- A value of the top-level `Box` produced by `process_eplus_html_report`: either
the `BoxList` created in the first branch, or a nested `Box` of title-to-dataframe
bindings auto-created by `default_box` on `reports[section]`. -/
inductive REntry (T : Type) where
  | blist (ts : List T)
  | sub (m : List (String × T))
  deriving DecidableEq, Repr

/-- Association-list lookup for the top-level `Box`, whose keys are the title
strings (`some title`) and Python's `None` (`none`), as used by
`reports[section]` and the `title not in reports.keys()` test. -/
def lookupKey {κ β : Type} [DecidableEq κ] : List (κ × β) → κ → Option β
  | [], _ => none
  | (k', v) :: rest, k => if k' = k then some v else lookupKey rest k

/-- The loop body of `process_eplus_html_report` (utils.py lines 53-57).  When
`section is None and title not in reports.keys()`, an empty `BoxList` is bound to
the title and the dataframe is discarded.  Otherwise `reports[section][title] = df`:
`default_box` auto-creates an empty nested `Box` at a missing `section` key (Python's
`None` is itself a key in that case); assigning a string key into an existing
`BoxList` raises `TypeError`. -/
def assembleStep {T : Type} (st : List (Option String × REntry T))
    (item : (Option String × String) × T) :
    Except PyError (List (Option String × REntry T)) :=
  let ((sec, title), df) := item
  if sec.isNone && (lookupKey st (some title)).isNone then
    .ok (st ++ [(some title, .blist [])])
  else
    match lookupKey st sec with
    | none => .ok (st ++ [(sec, .sub [(title, df)])])
    | some (.sub m) => .ok (upsert st sec (.sub (upsert m title df)))
    | some (.blist _) => .error .typeError

/-- The assembly loop of `process_eplus_html_report` (utils.py lines 52-58) over the
already-parsed items. -/
def assembleReports {T : Type} (items : List ((Option String × String) × T)) :
    Except PyError (List (Option String × REntry T)) :=
  items.foldlM assembleStep []

/-- Model of `process_eplus_html_report` (utils.py lines 42-58). -/
def process_eplus_html_report {T : Type} (ts : List (TableCtx T)) :
    Except PyError (List (Option String × REntry T)) :=
  _eplus_html_report_gen ts >>= assembleReports

/-! ## env_manager.py — `_extract_and_install` (lines 49-60) -/

/-- One pexpect interaction on the spawned installer process. -/
inductive PEvent where
  | expectLine (pat : String)
  | sendline (s : String)
  | expectEOF
  deriving DecidableEq, Repr

/-- Model of `_extract_and_install` (env_manager.py lines 49-60) as the sequence of
pexpect interactions performed on the spawned installer process, in program order:
`child.expect("\r\n")`, `child.sendline("y")`, `child.sendline(eplus_folder)`,
`child.expect("\r\n")`, `child.sendline("n")`, `child.expect(pexpect.EOF)`. -/
def _extract_and_install (eplusFolder : String) : List PEvent :=
  [.expectLine "\r\n", .sendline "y", .sendline eplusFolder,
   .expectLine "\r\n", .sendline "n", .expectEOF]

/-- Modelled from the spec: "spawn it, wait for the first line-terminated prompt,
respond affirmatively (license acceptance), wait for the next prompt, send the
target folder path as the install directory, wait for the next prompt, decline
symlink creation, then wait for process termination" — a strictly alternating
wait/answer script with three prompt waits. -/
def specInstallSequence (eplusFolder : String) : List PEvent :=
  [.expectLine "\r\n", .sendline "y", .expectLine "\r\n", .sendline eplusFolder,
   .expectLine "\r\n", .sendline "n", .expectEOF]

/-- The lines sent to the installer process, in order. -/
def sentLines (evs : List PEvent) : List String :=
  evs.filterMap fun e => match e with | .sendline s => some s | _ => none

/-- How many line-terminated prompts the script waits for. -/
def promptWaits (evs : List PEvent) : Nat :=
  evs.countP fun e => match e with | .expectLine _ => true | _ => false

/-! ## env_manager.py — `eplus_filename_pattern` and `_extract_filename_info`
(lines 16-38)

The pattern (env_manager.py lines 16-19) is

  `.*?(?P<filename>EnergyPlus-(?P<version>\d+.\d+.\d+)-(?P<revision>\w+)-(?P<platform>.*?).sh)$`

matched with `re.match`.  The model below implements Python's backtracking
semantics for exactly this pattern: the leading lazy `.*?` tries match start
positions left to right and cannot cross a newline; `\d+` and `\w+` are greedy
with backtracking (candidate prefixes longest first); the unescaped dots of the
pattern are the `.` metacharacter, matching any character except a newline; the
lazy `.*?` of the platform group tries candidate prefixes shortest first; `$`
accepts the end of the string or a sole trailing newline. -/

/-- The literal `EnergyPlus-` of the pattern. -/
def energyPlusLit : List Char := ['E', 'n', 'e', 'r', 'g', 'y', 'P', 'l', 'u', 's', '-']

/-- Python's `\w` (ASCII range): letters, digits and the underscore. -/
def isWordChar (c : Char) : Bool := c.isAlphanum || c == '_'

/-- Candidate splits of a greedy `\d+`-style atom: the nonempty prefixes of the
maximal run satisfying `p`, longest first, each with the remaining input. -/
def runSplits (p : Char → Bool) (s : List Char) : List (List Char × List Char) :=
  let run := s.takeWhile p
  let rest := s.dropWhile p
  (List.range run.length).map fun i => (run.take (run.length - i), run.drop (run.length - i) ++ rest)

/-- Candidate splits of a lazy `.*?` atom: all prefixes, shortest first. -/
def lazySplits : List Char → List (List Char × List Char)
  | [] => [([], [])]
  | c :: rest => ([], c :: rest) :: (lazySplits rest).map fun (p, q) => (c :: p, q)

/-- Python's `$` outside MULTILINE: the end of the string, or a position followed
only by a final newline. -/
def dollarEnd (r : List Char) : Bool := r.isEmpty || r == ['\n']

/-- The `groupdict()` of a successful match of `eplus_filename_pattern`. -/
structure FileInfo where
  filename : String
  version : String
  revision : String
  platform : String
  deriving DecidableEq, Repr

/-- The tail of the pattern after the revision's separating `-`: the lazy
platform group, one `.` metacharacter, the literal `sh`, the closing of the
groups and `$`.  `build` assembles the group dictionary from the platform
characters and the character the unescaped dot consumed. -/
def platCont (build : List Char → Char → FileInfo) :
    List Char × List Char → Option FileInfo :=
  fun pr =>
    if pr.1.contains '\n' then none else
    match pr.2 with
    | c3 :: 's' :: 'h' :: r10 =>
        if c3 == '\n' then none else
        if dollarEnd r10 then some (build pr.1 c3) else none
    | _ => none

/-- Match of the parenthesized part of `eplus_filename_pattern` at a fixed start
position, with Python's preference order; returns the group dictionary of the
first succeeding assignment.  The guards on `'\n'` reproduce the `.`
metacharacter, which matches any character except a newline. -/
def matchInner (s : List Char) : Option FileInfo :=
  if isPrefixList energyPlusLit s then
    let t := s.drop energyPlusLit.length
    (runSplits Char.isDigit t).findSome? fun (d1, r1) =>
      match r1 with
      | c1 :: r2 =>
        if c1 == '\n' then none else
        (runSplits Char.isDigit r2).findSome? fun (d2, r3) =>
          match r3 with
          | c2 :: r4 =>
            if c2 == '\n' then none else
            (runSplits Char.isDigit r4).findSome? fun (d3, r5) =>
              match r5 with
              | '-' :: r6 =>
                (runSplits isWordChar r6).findSome? fun (rev, r7) =>
                  match r7 with
                  | '-' :: r8 =>
                    (lazySplits r8).findSome? (platCont fun pl c3 =>
                      { filename := ⟨energyPlusLit ++ d1 ++ [c1] ++ d2 ++ [c2] ++ d3
                          ++ ['-'] ++ rev ++ ['-'] ++ pl ++ [c3, 's', 'h']⟩
                        version := ⟨d1 ++ [c1] ++ d2 ++ [c2] ++ d3⟩
                        revision := ⟨rev⟩
                        platform := ⟨pl⟩ })
                  | _ => none
              | _ => none
          | _ => none
      | [] => none
  else none

/-- `re.match(eplus_filename_pattern, url)`: the leading lazy `.*?` tries start
positions left to right and cannot cross a newline. -/
def reMatch : List Char → Option FileInfo
  | [] => matchInner []
  | c :: rest =>
    match matchInner (c :: rest) with
    | some info => some info
    | none => if c == '\n' then none else reMatch rest

/-- Model of `_extract_filename_info` (env_manager.py lines 34-38): the groupdict
of the match, or the `ValueError` raised when the URL does not match. -/
def _extract_filename_info (url : String) : Except String FileInfo :=
  match reMatch url.data with
  | some info => .ok info
  | none => .error "URL does not match the EnergyPlus filename pattern."

/-! ## env_manager.py — download check and `ensure_eplus_root` (lines 22-118) -/

/-- Model of `_is_downloadable` (env_manager.py lines 22-31) over the
`content-type` header of the HEAD response (`none` when the header is absent).
Python's `str.lower` is modelled with `Char.toLower`, which agrees on ASCII. -/
def _is_downloadable (contentType : Option String) : Bool :=
  match contentType with
  | none => false
  | some ct =>
      let l := ct.data.map Char.toLower
      if containsSub "text".data l then false
      else if containsSub "html".data l then false
      else true

/-- Errors raised by the installer manager. -/
inductive EnvError where
  | unsupportedPlatform (system : String)
  | patternMismatch
  | notDownloadable
  deriving DecidableEq, Repr

/-- Network, filesystem and process side effects of `ensure_eplus_root`, in
program order. -/
inductive Effect where
  | mkdirTarget (p : String)
  | acquireLock (p : String)
  | releaseLock (p : String)
  | rmtree (p : String)
  | mkdirCache (p : String)
  | headRequest (url : String)
  | getDownload (url : String)
  | runInstaller (script : String) (folder : String)
  deriving DecidableEq, Repr

/-- The external state `ensure_eplus_root` consults: the host platform, whether
the expected installation directory exists and what the glob would enumerate in
it, the `content-type` of the HEAD response, the `installer_cache` argument and
whether the installer script is already present there. -/
structure SysEnv where
  system : String
  expectedExists : Bool
  expectedEntries : List String
  contentType : Option String
  installerCache : Option String
  scriptInCache : Bool

/-- In env_manager.py line 108 the second conjunct of the fast-path test is
`expected_eplus_folder.glob("*")`: `Path.glob` returns a generator object, and a
generator is always truthy in Python, whatever the directory holds. -/
def globGeneratorTruthy (_entries : List String) : Bool := true

/-- Model of `version.replace(".", "-")` (env_manager.py line 107): a single
character replaced characterwise. -/
def dotsToDashes (s : String) : String :=
  ⟨s.data.map fun c => if c == '.' then '-' else c⟩

/-- The `Path.absolute()` calls of env_manager.py lines 109 and 118: resolution
against the working directory, the identity in this model, where the provided
`eplus_folder` is taken to be absolute already. -/
def pathAbsolute (p : String) : String := p

/-- Model of `_download_eplus_version` (env_manager.py lines 41-46): the HEAD
sanity check, the `ValueError` when it fails, and the GET download otherwise. -/
def _download_eplus_version (url : String) (ct : Option String) :
    Except EnvError Unit × List Effect :=
  if _is_downloadable ct then (.ok (), [.headRequest url, .getDownload url])
  else (.error .notDownloadable, [.headRequest url])

/-- The inner helper `url_to_installed` (env_manager.py lines 99-102): download
unless the script is already at `scriptPath`, then run the scripted install. -/
def url_to_installed (url folder scriptPath : String) (scriptExists : Bool)
    (ct : Option String) : Except EnvError Unit × List Effect :=
  if scriptExists then (.ok (), [.runInstaller scriptPath folder])
  else
    let (r, effs) := _download_eplus_version url ct
    match r with
    | .ok _ => (.ok (), effs ++ [.runInstaller scriptPath folder])
    | .error e => (.error e, effs)

/-- The body of the `with fasteners.InterProcessLock(...)` block of
`ensure_eplus_root` (env_manager.py lines 99-118).  In the `installer_cache =
None` branch the script path lives in a fresh temporary directory, so the script
never pre-exists there. -/
def ensureLocked (url eplusFolder : String) (env : SysEnv) :
    Except EnvError String × List Effect :=
  match _extract_filename_info url with
  | .error _ => (.error .patternMismatch, [])
  | .ok finfo =>
      let expected := eplusFolder ++ "/EnergyPlus-" ++ dotsToDashes finfo.version
      if env.expectedExists && globGeneratorTruthy env.expectedEntries then
        (.ok (pathAbsolute expected), [])
      else
        let (r, effs) :=
          match env.installerCache with
          | none =>
              url_to_installed url eplusFolder ("tmp/" ++ finfo.filename) false env.contentType
          | some cache =>
              let (r', effs') :=
                url_to_installed url eplusFolder (cache ++ "/" ++ finfo.filename)
                  env.scriptInCache env.contentType
              (r', Effect.mkdirCache cache :: effs')
        match r with
        | .ok _ => (.ok (pathAbsolute expected), Effect.rmtree expected :: effs)
        | .error e => (.error e, Effect.rmtree expected :: effs)

/-- Model of `ensure_eplus_root` (env_manager.py lines 63-118): the platform
check precedes every effect; the target directory creation and the lock precede
the body; the lock is released on every exit path of the `with` block. -/
def ensure_eplus_root (url eplusFolder : String) (env : SysEnv) :
    Except EnvError String × List Effect :=
  if env.system ≠ "Linux" then (.error (.unsupportedPlatform env.system), [])
  else
    let lockPath := eplusFolder ++ "/.lock"
    let (res, effs) := ensureLocked url eplusFolder env
    (res, Effect.mkdirTarget eplusFolder :: Effect.acquireLock lockPath ::
      (effs ++ [Effect.releaseLock lockPath]))

/-! ## Spec-modelled comparison definitions for the report converter -/

/-- Modelled from the spec: "strip a fixed `eplus-` prefix if present" — the key
derivation as the claim reads it, removing only a leading occurrence and leaving
the rest of the name unchanged. -/
def specStripLeadingEplus (stem : String) : String :=
  if stem = "eplus" then stem
  else if isPrefixList "eplus-".data stem.data then ⟨stem.data.drop 6⟩ else stem

/-! ## Spec-modelled comparison definitions for the installer manager -/

/-- Modelled from the spec: the HEAD response "looks like an HTML/text page",
i.e. its `content-type` contains `text` or `html` (case-insensitively). -/
def specTextHtmlPage (contentType : Option String) : Bool :=
  match contentType with
  | none => false
  | some ct =>
      let l := ct.data.map Char.toLower
      containsSub "text".data l || containsSub "html".data l

/-- The deterministic tail check of the spec grammar after an `EnergyPlus-`
occurrence: `<version>-<revision>-<platform>.sh` with a three-component numeric
version separated by literal dots, a nonempty word-character revision, and an
arbitrary platform followed by the literal suffix `.sh`. -/
def specGrammarTail (s : List Char) : Bool :=
  let d1 := s.takeWhile Char.isDigit
  let s1 := s.dropWhile Char.isDigit
  match d1, s1 with
  | _ :: _, '.' :: s2 =>
      let d2 := s2.takeWhile Char.isDigit
      let s3 := s2.dropWhile Char.isDigit
      match d2, s3 with
      | _ :: _, '.' :: s4 =>
          let d3 := s4.takeWhile Char.isDigit
          let s5 := s4.dropWhile Char.isDigit
          match d3, s5 with
          | _ :: _, '-' :: s6 =>
              let rev := s6.takeWhile isWordChar
              let s7 := s6.dropWhile isWordChar
              match rev, s7 with
              | _ :: _, '-' :: s8 => isPrefixList ['h', 's', '.'] s8.reverse
              | _, _ => false
          | _, _ => false
      | _, _ => false
  | _, _ => false

/-- Modelled from the spec: "url must match pattern
`.../EnergyPlus-<version>-<revision>-<platform>.sh`" with `version` a semantic
version string — some position of the URL starts `EnergyPlus-` followed by a
well-formed `<version>-<revision>-<platform>.sh` tail. -/
def specInstallerGrammar (url : String) : Bool :=
  (List.range url.data.length).any fun i =>
    isPrefixList energyPlusLit (url.data.drop i) &&
      specGrammarTail (url.data.drop (i + energyPlusLit.length))

/-! ## Theorems -/

/-- Claim C1 (failing input): on Linux, with the expected installation directory
existing but empty, `ensure_eplus_root` takes the fast path anyway — it returns the
empty directory and performs no removal, download or install.  The non-emptiness
conjunct `expected_eplus_folder.glob("*")` of line 108 is a generator object and
hence always truthy, so, contrary to the claim (and to the spec's fast-path
description), an existing empty remnant is not removed and the install path is not
taken. -/
theorem ensure_eplus_root_empty_dir_fast_path :
    ensure_eplus_root "https://x/EnergyPlus-9.4.0-998c4b761e-Linux-Ubuntu18.04-x86_64.sh"
      "/opt/eplus" ⟨"Linux", true, [], some "application/x-sh", none, false⟩ =
    (.ok "/opt/eplus/EnergyPlus-9-4-0",
     [.mkdirTarget "/opt/eplus", .acquireLock "/opt/eplus/.lock",
      .releaseLock "/opt/eplus/.lock"]) := by decide

/-- Claim C9 (confirmed): on a non-Linux platform, `ensure_eplus_root` fails with
the unsupported-platform error and performs no effect at all — no directory
creation, lock acquisition, network request or install. -/
theorem ensure_root_non_linux (url folder : String) (env : SysEnv)
    (h : env.system ≠ "Linux") :
    ensure_eplus_root url folder env = (.error (.unsupportedPlatform env.system), []) := by
  simp [ensure_eplus_root, h]

/-- Witness for `ensure_root_non_linux` at a concrete non-Linux environment. -/
theorem ensure_root_non_linux_witness :
    ensure_eplus_root "u" "f" ⟨"Windows", false, [], none, none, false⟩ =
      (.error (.unsupportedPlatform "Windows"), []) :=
  ensure_root_non_linux "u" "f" ⟨"Windows", false, [], none, none, false⟩ (by decide)

/-- Claim C5 (failing input): a CSV file whose bytes decode neither in
`pd.read_csv` nor in the fallback `open(csv_file).read()` (binary garbage) makes
`process_eplus_time_series` raise `UnicodeDecodeError` after emitting the warning:
the fallback read of utils.py lines 83-84 is outside the `try` block, so the
failure is surfaced to the caller, contrary to the claim. -/
theorem time_series_binary_garbage_raises :
    process_eplus_time_series [(⟨"junk", .error (), .error ()⟩ : CsvFile Nat)] =
      (.error .unicodeDecodeError,
       ["Unable to parse csv file junk.csv. Return raw string as fallback."]) := by decide

/-- Claim C10 (confirmed): two CSV files deriving the same key leave a single
entry in the returned mapping, holding the value of the file processed last; the
earlier file's table is silently discarded. -/
theorem time_series_duplicate_key_last_wins {T : Type} (n1 n2 : String) (t1 t2 : T)
    (h : deriveName n1 = deriveName n2) :
    process_eplus_time_series [⟨n1, .ok t1, .ok ""⟩, ⟨n2, .ok t2, .ok ""⟩] =
      (.ok [(deriveName n2, .table t2)], []) := by
  simp [process_eplus_time_series, processCsvFiles, upsert, h]

/-- Witness for `time_series_duplicate_key_last_wins`: `eplus-meter.csv` and
`meter.csv` both derive the key `meter`. -/
theorem time_series_duplicate_key_last_wins_witness :
    deriveName "eplus-meter" = deriveName "meter" ∧
    process_eplus_time_series [⟨"eplus-meter", .ok (0 : Nat), .ok ""⟩, ⟨"meter", .ok 1, .ok ""⟩] =
      (.ok [(deriveName "meter", .table 1)], []) :=
  ⟨by decide, time_series_duplicate_key_last_wins "eplus-meter" "meter" 0 1 (by decide)⟩

/-- Claim C8 (counterexample): a HEAD response with no `content-type` header at
all also fails the download check with the not-downloadable error, although it
does not satisfy the claim's "content-type containing text or html" condition. -/
theorem downloadable_missing_header_counterexample :
    (_download_eplus_version "http://host/e.sh" none).1 = .error .notDownloadable ∧
    specTextHtmlPage none = false := by decide

/-- Claim C8 (amended): the download step fails with the not-downloadable error
exactly when the `content-type` header is absent or contains `text` or `html`
(case-insensitively); when the check passes, the GET download proceeds. -/
theorem downloadable_amended (url : String) (ct : Option String) :
    ((_download_eplus_version url ct).1 = .error .notDownloadable ↔
      ct = none ∨ specTextHtmlPage ct = true) ∧
    ((_download_eplus_version url ct).1 = .ok () →
      (_download_eplus_version url ct).2 = [.headRequest url, .getDownload url]) := by
  cases ct with
  | none => simp [_download_eplus_version, _is_downloadable, specTextHtmlPage]
  | some s =>
      cases h1 : containsSub "text".data (s.data.map Char.toLower) <;>
        cases h2 : containsSub "html".data (s.data.map Char.toLower) <;>
          simp [_download_eplus_version, _is_downloadable, specTextHtmlPage, h1, h2]

/-- Witness for `downloadable_amended` at a binary content type. -/
theorem downloadable_amended_witness :
    (_download_eplus_version "http://host/e.sh" (some "application/x-sh")).2 =
      [.headRequest "http://host/e.sh", .getDownload "http://host/e.sh"] :=
  (downloadable_amended "http://host/e.sh" (some "application/x-sh")).2 (by decide)

/-- Claim C4 (counterexample): the scripted install is not the alternating
wait/answer sequence the claim describes — the code sends the install directory
immediately after the license answer, with no prompt wait in between. -/
theorem install_script_counterexample :
    _extract_and_install "/opt/eplus" ≠ specInstallSequence "/opt/eplus" := by decide

/-- Claim C4 (amended): the scripted install sends exactly the answers `y`, the
target folder and `n` in that order and ends waiting for process termination, but
waits for only two line-terminated prompts, not three: the code performs the
claimed sequence with the prompt wait before the folder answer removed. -/
theorem install_script_amended (folder : String) :
    sentLines (_extract_and_install folder) = ["y", folder, "n"] ∧
    promptWaits (_extract_and_install folder) = 2 ∧
    promptWaits (specInstallSequence folder) = 3 ∧
    _extract_and_install folder = (specInstallSequence folder).eraseIdx 2 ∧
    (_extract_and_install folder).getLast? = some .expectEOF :=
  ⟨rfl, rfl, rfl, rfl, rfl⟩

/-- Claim C6 (counterexample): a table with no preceding bolded sibling makes the
report generator — and with it `process_eplus_html_report` — raise
`AttributeError`: the title lookup of utils.py line 36 is outside the `try`
block, so a missing title does not degrade. -/
theorem html_missing_title_counterexample :
    process_eplus_html_report [(⟨none, none, (0 : Nat)⟩ : TableCtx Nat)] =
      .error .attributeError ∧
    _eplus_html_report_gen [(⟨none, none, (0 : Nat)⟩ : TableCtx Nat)] =
      .error .attributeError := by decide

/-- Claim C6 (amended): a missing `Report:` marker, or a marker without a
following bolded sibling, degrades to section absent without raising; but a table
with no preceding bolded sibling raises `AttributeError` — the missing-title case
does not degrade. -/
theorem html_degrade_amended {T : Type} (t : TableCtx T) :
    (t.prevReportMarker = none → sectionOf t = none) ∧
    (∀ m, t.prevReportMarker = some m → m.nextSiblingB = none → sectionOf t = none) ∧
    (t.prevSiblingB = none → genItem t = .error .attributeError) ∧
    (∀ title, t.prevSiblingB = some title →
      genItem t = .ok ((sectionOf t, title), t.tbl)) := by
  refine ⟨fun h => ?_, fun m hm hn => ?_, fun h => ?_, fun title h => ?_⟩
  · simp [sectionOf, h]
  · simp [sectionOf, hm, hn]
  · simp [genItem, h]
  · simp [genItem, h]

/-- Witness for `html_degrade_amended` at concrete table contexts. -/
theorem html_degrade_amended_witness :
    sectionOf (⟨none, some "Building Area", (0 : Nat)⟩ : TableCtx Nat) = none ∧
    genItem (⟨none, none, (0 : Nat)⟩ : TableCtx Nat) = .error .attributeError :=
  ⟨(html_degrade_amended ⟨none, some "Building Area", 0⟩).1 rfl,
   (html_degrade_amended ⟨none, none, 0⟩).2.2.1 rfl⟩

/-- Claim C3 (counterexample): the key derivation removes every occurrence of
`eplus-`, not only a leading one: `a-eplus-b.csv` is keyed `a-b`, although its
base name has no leading `eplus-` prefix and the claim would leave it unchanged. -/
theorem derive_name_counterexample :
    deriveName "a-eplus-b" = "a-b" ∧
    specStripLeadingEplus "a-eplus-b" = "a-eplus-b" ∧
    ("a-b" : String) ≠ "a-eplus-b" := by decide

/-- A string with no occurrence of `eplus-` is left unchanged by the
replacement. -/
theorem replaceEplus_of_not_contains (s : List Char)
    (h : containsSub "eplus-".data s = false) : replaceEplus s = s := by
  induction s with
  | nil => rfl
  | cons c r ih =>
      rw [containsSub] at h
      simp only [Bool.or_eq_false_iff] at h
      obtain ⟨h1, h2⟩ := h
      rw [replaceEplus.eq_def]
      split
      · exfalso
        rename_i rest heq
        rw [heq] at h1
        simp [isPrefixList] at h1
      · rename_i c' rest' heq
        injection heq with hc hr
        subst hc
        subst hr
        rw [ih h2]
      · rename_i heq
        exact absurd heq (List.cons_ne_nil c r)

/-- Claim C3 (amended): the key derivation removes every occurrence of `eplus-`;
in particular it strips a leading `eplus-` prefix and leaves the rest unchanged
provided `eplus-` occurs nowhere else in the name, a name with no occurrence at
all is kept unchanged, and the base name `eplus` is kept as is. -/
theorem derive_name_amended (rest : String)
    (h : containsSub "eplus-".data rest.data = false) :
    deriveName ("eplus-" ++ rest) = rest ∧
    (rest ≠ "eplus" → deriveName rest = rest) ∧
    deriveName "eplus" = "eplus" := by
  have hdata : ("eplus-" ++ rest).data = 'e' :: 'p' :: 'l' :: 'u' :: 's' :: '-' :: rest.data := rfl
  refine ⟨?_, fun hne => ?_, by decide⟩
  · have hne6 : ("eplus-" ++ rest) ≠ "eplus" := by
      intro he
      have hlen : ("eplus-" ++ rest).length = "eplus".length := by rw [he]
      rw [String.length_append] at hlen
      have h6 : "eplus-".length = 6 := rfl
      have h5 : "eplus".length = 5 := rfl
      omega
    rw [deriveName, if_neg hne6, hdata]
    show String.mk (replaceEplus rest.data) = rest
    rw [replaceEplus_of_not_contains rest.data h]
  · rw [deriveName, if_neg hne, replaceEplus_of_not_contains rest.data h]

/-- Witness for `derive_name_amended`: `eplus-meter.csv` is keyed `meter`. -/
theorem derive_name_amended_witness :
    containsSub "eplus-".data "meter".data = false ∧
    deriveName ("eplus-" ++ "meter") = "meter" :=
  ⟨by decide, (derive_name_amended "meter" (by decide)).1⟩

/-- Claim C2 (counterexample): two tables with section absent and the same title
leave the top-level entry for that title an empty sequence; the subsequent table
is stored under the `None` key instead of being received by the sequence. -/
theorem process_html_repeated_title_counterexample :
    assembleReports [((none, "T"), (0 : Nat)), ((none, "T"), 1)] =
      .ok [(some "T", .blist []), (none, .sub [("T", 1)])] ∧
    (assembleReports [((none, "T"), (0 : Nat)), ((none, "T"), 1)]).toOption.bind
      (fun st => lookupKey st (some "T")) = some (.blist []) := by decide

/-- Assembly step on the empty report: the first no-section occurrence of a title
binds an empty sequence and discards the table. -/
theorem assemble_step_nil {T : Type} (title : String) (t0 : T) :
    assembleStep [] ((none, title), t0) = .ok [(some title, REntry.blist [])] := by
  simp [assembleStep, lookupKey]

/-- Assembly step after the empty sequence was bound: the next no-section table
with the same title is stored at the `None` key. -/
theorem assemble_step_S0 {T : Type} (title : String) (y : T) :
    assembleStep [(some title, REntry.blist [])] ((none, title), y) =
      .ok [(some title, REntry.blist []), (none, REntry.sub [(title, y)])] := by
  simp [assembleStep, lookupKey]

/-- Assembly step once the `None` key exists: a further no-section table with the
same title overwrites the binding under the `None` key. -/
theorem assemble_step_S1 {T : Type} (title : String) (x y : T) :
    assembleStep [(some title, REntry.blist []), (none, REntry.sub [(title, x)])]
      ((none, title), y) =
      .ok [(some title, REntry.blist []), (none, REntry.sub [(title, y)])] := by
  simp [assembleStep, lookupKey, upsert]

/-- Folding any further run of no-section tables with the same title keeps the
shape and ends with the last table bound under the `None` key. -/
theorem assemble_fold_S1 {T : Type} (title : String) (tl : T) (ts : List T) :
    ∀ x : T, List.foldlM assembleStep
      [(some title, REntry.blist []), (none, REntry.sub [(title, x)])]
      ((ts ++ [tl]).map fun t => ((none, title), t)) =
      .ok [(some title, REntry.blist []), (none, REntry.sub [(title, tl)])] := by
  induction ts with
  | nil =>
      intro x
      simp [List.foldlM_cons, assemble_step_S1 title x tl, Bind.bind, Except.bind,
        Pure.pure, Except.pure]
  | cons a as ih =>
      intro x
      simp only [List.cons_append, List.map_cons, List.foldlM_cons,
        assemble_step_S1 title x a, Bind.bind, Except.bind]
      simpa [Bind.bind, Except.bind] using ih a

/-- Claim C2 (amended): for a run of tables with section absent and the same
title, the first occurrence binds an empty sequence at the top level and its
table is not inserted; every subsequent table is stored at `reports[None][title]`
— the `None` key, not the top-level sequence — each overwriting the previous, so
the top-level entry for the title remains the empty sequence and only the last
subsequent table survives, under the `None` key. -/
theorem process_html_no_section_amended {T : Type} (title : String) (t0 tl : T)
    (ts : List T) :
    assembleReports (((t0 :: ts) ++ [tl]).map fun t => ((none, title), t)) =
      .ok [(some title, .blist []), (none, .sub [(title, tl)])] := by
  cases ts with
  | nil =>
      simp [assembleReports, List.foldlM_cons, assemble_step_nil, assemble_step_S0,
        Bind.bind, Except.bind, Pure.pure, Except.pure]
  | cons a as =>
      simp only [assembleReports, List.cons_append, List.map_cons, List.foldlM_cons,
        assemble_step_nil, assemble_step_S0, Bind.bind, Except.bind]
      simpa [Bind.bind, Except.bind] using assemble_fold_S1 title tl as a

/-- A list is a prefix of itself followed by anything. -/
theorem isPrefixList_append (pre s : List Char) : isPrefixList pre (pre ++ s) = true := by
  induction pre with
  | nil => rfl
  | cons c cs ih => simp [isPrefixList, ih]

/-- `takeWhile` runs through a block that satisfies the predicate. -/
theorem takeWhile_append_of_all (p : Char → Bool) (d r : List Char)
    (h : ∀ c ∈ d, p c = true) : (d ++ r).takeWhile p = d ++ r.takeWhile p := by
  induction d with
  | nil => rfl
  | cons c cs ih =>
      have hc : p c = true := h c (List.mem_cons_self c cs)
      simp [List.takeWhile_cons, hc]
      exact ih fun x hx => h x (List.mem_cons_of_mem c hx)

/-- `dropWhile` runs through a block that satisfies the predicate. -/
theorem dropWhile_append_of_all (p : Char → Bool) (d r : List Char)
    (h : ∀ c ∈ d, p c = true) : (d ++ r).dropWhile p = r.dropWhile p := by
  induction d with
  | nil => rfl
  | cons c cs ih =>
      have hc : p c = true := h c (List.mem_cons_self c cs)
      simp [List.dropWhile_cons, hc]
      exact ih fun x hx => h x (List.mem_cons_of_mem c hx)

/-- When `takeWhile` takes nothing, `dropWhile` drops nothing. -/
theorem dropWhile_of_takeWhile_nil (p : Char → Bool) (r : List Char)
    (h : r.takeWhile p = []) : r.dropWhile p = r := by
  cases r with
  | nil => rfl
  | cons c cs =>
      cases hc : p c with
      | true => rw [List.takeWhile_cons, hc] at h; simp at h
      | false => simp [List.dropWhile_cons, hc]

/-- Greedy preference: when the input decomposes as a maximal satisfying run
followed by a rest whose head fails the predicate, the first candidate of
`runSplits` is that decomposition, and the whole search succeeds as soon as the
continuation accepts it. -/
theorem findSome_runSplits {α : Type} (p : Char → Bool) (d r : List Char)
    (k : List Char × List Char → Option α) (res : α)
    (hd : d ≠ []) (hall : ∀ c ∈ d, p c = true) (hr : r.takeWhile p = [])
    (hk : k (d, r) = some res) :
    (runSplits p (d ++ r)).findSome? k = some res := by
  unfold runSplits
  rw [takeWhile_append_of_all p d r hall, hr, List.append_nil,
    dropWhile_append_of_all p d r hall, dropWhile_of_takeWhile_nil p r hr]
  dsimp only
  obtain ⟨n, hn⟩ : ∃ n, d.length = n + 1 := by
    cases d with
    | nil => exact absurd rfl hd
    | cons c cs => exact ⟨cs.length, rfl⟩
  rw [hn, List.range_succ_eq_map, List.map_cons, List.findSome?_cons]
  have h0 : d.take (n + 1 - 0) = d := by
    rw [Nat.sub_zero, ← hn]
    exact List.take_length d
  have h0' : d.drop (n + 1 - 0) = [] := by
    rw [Nat.sub_zero, ← hn]
    exact List.drop_length d
  simp only [h0, h0', List.nil_append, hk]



/-- Lazy preference: the search over `lazySplits` returns the continuation's
value at a split as soon as every shorter prefix is rejected. -/
theorem findSome_lazySplits {α : Type} (pre : List Char) :
    ∀ (k : List Char × List Char → Option α) (suf : List Char) (res : α),
    (∀ i, i < pre.length → k (pre.take i, pre.drop i ++ suf) = none) →
    k (pre, suf) = some res →
    (lazySplits (pre ++ suf)).findSome? k = some res := by
  induction pre with
  | nil =>
      intro k suf res hfail hsucc
      cases suf with
      | nil => simp [lazySplits, List.findSome?_cons, hsucc]
      | cons c cs => simp [lazySplits, List.findSome?_cons, hsucc]
  | cons a pre' ih =>
      intro k suf res hfail hsucc
      rw [List.cons_append]
      simp only [lazySplits, List.findSome?_cons]
      have h0 := hfail 0 (by simp)
      simp only [List.take_zero, List.drop_zero, List.cons_append] at h0
      rw [h0, List.findSome?_map]
      apply ih (k ∘ fun pq => (a :: pq.1, pq.2)) suf res
      · intro i hi
        have hstep := hfail (i + 1) (by simpa using Nat.succ_lt_succ hi)
        simpa using hstep
      · simpa using hsucc

/-- A successful platform continuation forces the remainder to be one consumed
character, the literal `sh` and an accepted `$` position. -/
theorem platCont_eq_some {b : List Char → Char → FileInfo} {pl r9 : List Char}
    {res : FileInfo} (h : platCont b (pl, r9) = some res) :
    ∃ c3 r10, r9 = c3 :: 's' :: 'h' :: r10 ∧ dollarEnd r10 = true := by
  unfold platCont at h
  split at h
  · exact absurd h (by simp)
  · split at h
    · rename_i x c3 r10 heq
      split at h
      · exact absurd h (by simp)
      · split at h
        · rename_i hdol
          exact ⟨c3, r10, heq, hdol⟩
        · exact absurd h (by simp)
    · exact absurd h (by simp)

/-- The platform continuation accepts exactly at the `.sh` suffix when the
platform has no newline. -/
theorem platCont_success (b : List Char → Char → FileInfo) (pl : List Char)
    (hpl : '\n' ∉ pl) :
    platCont b (pl, ['.', 's', 'h']) = some (b pl '.') := by
  simp [platCont, hpl, dollarEnd]

/-- The platform continuation rejects every proper prefix of the platform: the
remainder would be too long for the anchored `sh` tail. -/
theorem platCont_fail (b : List Char → Char → FileInfo) (plat : List Char) (i : Nat)
    (hi : i < plat.length) :
    platCont b (plat.take i, plat.drop i ++ ['.', 's', 'h']) = none := by
  cases hcase : platCont b (plat.take i, plat.drop i ++ ['.', 's', 'h']) with
  | none => rfl
  | some res =>
      exfalso
      obtain ⟨c3, r10, hshape, hdollar⟩ := platCont_eq_some hcase
      have hr10 : r10 = [] ∨ r10 = ['\n'] := by
        rcases r10 with _ | ⟨x, xs⟩
        · exact Or.inl rfl
        · right
          simp [dollarEnd] at hdollar
          simp [hdollar]
      have hlen := congrArg List.length hshape
      simp [List.length_append, List.length_drop] at hlen
      rcases hr10 with h0 | h1
      · subst h0
        simp at hlen
        omega
      · subst h1
        have hone : (plat.drop i).length = 1 := by
          simp only [List.length_cons, List.length_nil] at hlen
          simp [List.length_drop]
          omega
        obtain ⟨x, hx⟩ := List.length_eq_one.mp hone
        rw [hx] at hshape
        simp at hshape



/-- The anchored part of the pattern matches a well-formed installer filename at
its start and extracts exactly the grammar's components. -/
theorem matchInner_core (d1 d2 d3 rev plat : List Char)
    (h1 : d1 ≠ []) (h1a : ∀ c ∈ d1, c.isDigit = true)
    (h2 : d2 ≠ []) (h2a : ∀ c ∈ d2, c.isDigit = true)
    (h3 : d3 ≠ []) (h3a : ∀ c ∈ d3, c.isDigit = true)
    (hr : rev ≠ []) (hra : ∀ c ∈ rev, isWordChar c = true)
    (hpl : '\n' ∉ plat) :
    matchInner (energyPlusLit ++
        (d1 ++ '.' :: (d2 ++ '.' :: (d3 ++ '-' :: (rev ++ '-' :: (plat ++ ['.', 's', 'h'])))))) =
      some { filename := ⟨energyPlusLit ++ d1 ++ ['.'] ++ d2 ++ ['.'] ++ d3
               ++ ['-'] ++ rev ++ ['-'] ++ plat ++ ['.', 's', 'h']⟩
             version := ⟨d1 ++ ['.'] ++ d2 ++ ['.'] ++ d3⟩
             revision := ⟨rev⟩
             platform := ⟨plat⟩ } := by
  unfold matchInner
  rw [if_pos (isPrefixList_append energyPlusLit _)]
  dsimp only
  rw [List.drop_left]
  apply findSome_runSplits Char.isDigit d1 _ _ _ h1 h1a
  · rw [List.takeWhile_cons]
    simp
  · dsimp only
    rw [if_neg (by decide)]
    apply findSome_runSplits Char.isDigit d2 _ _ _ h2 h2a
    · rw [List.takeWhile_cons]
      simp
    · dsimp only
      rw [if_neg (by decide)]
      apply findSome_runSplits Char.isDigit d3 _ _ _ h3 h3a
      · rw [List.takeWhile_cons]
        simp
      · dsimp only
        apply findSome_runSplits isWordChar rev _ _ _ hr hra
        · rw [List.takeWhile_cons]
          simp [isWordChar]
        · dsimp only
          have hlazy := findSome_lazySplits plat
            (platCont fun pl c3 =>
              { filename := ⟨energyPlusLit ++ d1 ++ ['.'] ++ d2 ++ ['.'] ++ d3
                  ++ ['-'] ++ rev ++ ['-'] ++ pl ++ [c3, 's', 'h']⟩
                version := ⟨d1 ++ ['.'] ++ d2 ++ ['.'] ++ d3⟩
                revision := ⟨rev⟩
                platform := ⟨pl⟩ })
            ['.', 's', 'h'] _
            (fun i hi => platCont_fail _ plat i hi)
            (platCont_success _ plat hpl)
          exact hlazy



/-- No anchored match at a position that does not start with `EnergyPlus-`. -/
theorem matchInner_none_of_not_prefix (s : List Char)
    (h : isPrefixList energyPlusLit s = false) : matchInner s = none := by
  simp [matchInner, h]

/-- The leading lazy `.*?` skips a newline-free prefix with no `EnergyPlus-`
occurrence and the match result is the one found at the end of the prefix. -/
theorem reMatch_append (p : List Char) :
    ∀ (core : List Char) (res : FileInfo), core ≠ [] → '\n' ∉ p →
    (∀ i, i < p.length → isPrefixList energyPlusLit ((p ++ core).drop i) = false) →
    matchInner core = some res →
    reMatch (p ++ core) = some res := by
  induction p with
  | nil =>
      intro core res hcore hnl hno hm
      simp only [List.nil_append]
      cases core with
      | nil => exact absurd rfl hcore
      | cons c cs =>
          simp only [reMatch, hm]
  | cons a p' ih =>
      intro core res hcore hnl hno hm
      rw [List.cons_append]
      simp only [reMatch]
      have h0 : matchInner (a :: (p' ++ core)) = none := by
        apply matchInner_none_of_not_prefix
        have := hno 0 (by simp)
        simpa using this
      rw [h0]
      have ha : (a == '\n') = false := by
        apply beq_false_of_ne
        intro he
        exact hnl (by rw [he]; exact List.mem_cons_self '\n' p')
      rw [ha]
      simp only [Bool.false_eq_true, if_false]
      apply ih core res hcore (fun hmem => hnl (List.mem_cons_of_mem a hmem)) _ hm
      intro i hi
      have := hno (i + 1) (by simp; omega)
      simpa using this

/-- Claim C7 (amended): for every URL of the shape
`<prefix>EnergyPlus-<d1>.<d2>.<d3>-<revision>-<platform>.sh` — the installer
filename grammar, with numeric version components, a nonempty word-character
revision, a newline-free platform and a newline-free prefix containing no
`EnergyPlus-` occurrence — `_extract_filename_info` returns the full mapping
with exactly the grammar's filename, version, revision and platform; and for
every URL the compiled pattern does not match (which is fewer than the
non-grammar URLs, the pattern's dots being unescaped), it fails with the
pattern-mismatch `ValueError` and returns nothing. -/
theorem filename_info_amended (p d1 d2 d3 rev plat : List Char)
    (hpnl : '\n' ∉ p)
    (hp : ∀ i, i < p.length → isPrefixList energyPlusLit
      ((p ++ (energyPlusLit ++ (d1 ++ '.' :: (d2 ++ '.' :: (d3 ++ '-' ::
        (rev ++ '-' :: (plat ++ ['.', 's', 'h']))))))).drop i) = false)
    (h1 : d1 ≠ []) (h1a : ∀ c ∈ d1, c.isDigit = true)
    (h2 : d2 ≠ []) (h2a : ∀ c ∈ d2, c.isDigit = true)
    (h3 : d3 ≠ []) (h3a : ∀ c ∈ d3, c.isDigit = true)
    (hr : rev ≠ []) (hra : ∀ c ∈ rev, isWordChar c = true)
    (hpl : '\n' ∉ plat) :
    _extract_filename_info ⟨p ++ (energyPlusLit ++ (d1 ++ '.' :: (d2 ++ '.' :: (d3 ++ '-' ::
        (rev ++ '-' :: (plat ++ ['.', 's', 'h']))))))⟩ =
      .ok { filename := ⟨energyPlusLit ++ d1 ++ ['.'] ++ d2 ++ ['.'] ++ d3
              ++ ['-'] ++ rev ++ ['-'] ++ plat ++ ['.', 's', 'h']⟩
            version := ⟨d1 ++ ['.'] ++ d2 ++ ['.'] ++ d3⟩
            revision := ⟨rev⟩
            platform := ⟨plat⟩ } ∧
    (∀ u : String, reMatch u.data = none →
      _extract_filename_info u = .error "URL does not match the EnergyPlus filename pattern.") := by
  constructor
  · unfold _extract_filename_info
    have hre := reMatch_append p
      (energyPlusLit ++ (d1 ++ '.' :: (d2 ++ '.' :: (d3 ++ '-' ::
        (rev ++ '-' :: (plat ++ ['.', 's', 'h'])))))) _
      (by simp [energyPlusLit]) hpnl hp
      (matchInner_core d1 d2 d3 rev plat h1 h1a h2 h2a h3 h3a hr hra hpl)
    dsimp only
    rw [hre]
  · intro u hu
    unfold _extract_filename_info
    rw [hu]



/-- Claim C7 (counterexample): the unescaped dots of `eplus_filename_pattern`
match any character, so `EnergyPlus-9X4Y0-998c-Linux.sh` — a URL outside the
installer filename grammar, whose version separators are not dots — is accepted
with version `9X4Y0` instead of failing with the pattern-mismatch error; the
standard URL of the spec does satisfy the grammar. -/
theorem filename_info_counterexample :
    _extract_filename_info "EnergyPlus-9X4Y0-998c-Linux.sh" =
      .ok ⟨"EnergyPlus-9X4Y0-998c-Linux.sh", "9X4Y0", "998c", "Linux"⟩ ∧
    specInstallerGrammar "EnergyPlus-9X4Y0-998c-Linux.sh" = false ∧
    specInstallerGrammar "https://x/EnergyPlus-9.4.0-998c4b761e-Linux-Ubuntu18.04-x86_64.sh" = true := by
  refine ⟨by decide, by decide, by decide⟩

/-- Witness for `filename_info_amended` at the spec's example URL. -/
theorem filename_info_amended_witness :
    String.mk ("https://x/".data ++ (energyPlusLit ++ ("9".data ++ '.' :: ("4".data ++ '.' ::
        ("0".data ++ '-' :: ("998c4b761e".data ++ '-' ::
          ("Linux-Ubuntu18.04-x86_64".data ++ ['.', 's', 'h'])))))))
      = "https://x/EnergyPlus-9.4.0-998c4b761e-Linux-Ubuntu18.04-x86_64.sh" ∧
    _extract_filename_info ⟨"https://x/".data ++ (energyPlusLit ++ ("9".data ++ '.' :: ("4".data ++ '.' ::
        ("0".data ++ '-' :: ("998c4b761e".data ++ '-' ::
          ("Linux-Ubuntu18.04-x86_64".data ++ ['.', 's', 'h']))))))⟩ =
      .ok { filename := ⟨energyPlusLit ++ "9".data ++ ['.'] ++ "4".data ++ ['.'] ++ "0".data
              ++ ['-'] ++ "998c4b761e".data ++ ['-'] ++ "Linux-Ubuntu18.04-x86_64".data
              ++ ['.', 's', 'h']⟩
            version := ⟨"9".data ++ ['.'] ++ "4".data ++ ['.'] ++ "0".data⟩
            revision := ⟨"998c4b761e".data⟩
            platform := ⟨"Linux-Ubuntu18.04-x86_64".data⟩ } :=
  ⟨by decide,
   (filename_info_amended "https://x/".data "9".data "4".data "0".data "998c4b761e".data
      "Linux-Ubuntu18.04-x86_64".data (by decide) (by decide) (by decide) (by decide)
      (by decide) (by decide) (by decide) (by decide) (by decide) (by decide) (by decide)).1⟩

end EPlus
